import Mathlib

/-!
Shallow embedding of the kerning-comparison core of the kern-compare
repository (sources: src/App.tsx, src/utils/fontUtils.ts,
src/utils/dictionaries.ts, and the KerningComparison component).

JavaScript `Record<string, number>` objects are modelled as association
lists `List (String × Int)` in insertion order with unique keys
(uniqueness is an invariant of JS objects and appears as a hypothesis
where a theorem needs it).  JS `Map` lookup (last `set` wins) and
JS `Set` (first-occurrence dedup, insertion order) are modelled
explicitly below.  `Math.abs` is `jsAbs`, `String.prototype.split(',')`
is `jsSplitComma`, and `undefined` results of `parts[0]`/`parts[1]`
destructuring are modelled as `""` (which never belongs to a character
set of one-character strings, so membership tests agree).
-/

/-- Model of `Math.abs` on integers. -/
def jsAbs (n : Int) : Int := if n < 0 then -n else n

/-- Tail worker for `jsSplitComma`; `acc` holds the current field reversed. -/
def splitCommaAux : List Char → List Char → List String
  | [], acc => [String.mk acc.reverse]
  | c :: rest, acc =>
      if c = ',' then String.mk acc.reverse :: splitCommaAux rest []
      else splitCommaAux rest (c :: acc)

/-- Model of the JS `s.split(',')` used on kerning pair keys. -/
def jsSplitComma (s : String) : List String := splitCommaAux s.data []

/-- One-character JS string, as produced by `characters.split('')`. -/
def charToStr (c : Char) : String := String.mk [c]

/-- Pair key `` `${leftChar},${rightChar}` `` built by the extractor. -/
def pairKey (l r : Char) : String := String.mk [l, ',', r]

/-- JS `Set` built from a list: keep the first occurrence of each element,
in insertion order.  `seen` accumulates the elements already emitted. -/
def setAddAll (seen : List String) : List String → List String
  | [] => []
  | k :: rest =>
      if k ∈ seen then setAddAll seen rest
      else k :: setAddAll (k :: seen) rest

/-- Model of `new Set(list)` iterated in insertion order. -/
def jsSetOfList (ks : List String) : List String := setAddAll [] ks

/-- JS `Map.get` after the entries were `set` in list order: the value of
the last binding for the key. -/
def jsMapGet (entries : List (String × Int)) (k : String) : Option Int :=
  entries.reverse.lookup k

/-! ### dictionaries.ts -/

/-- Dictionary record from `src/utils/dictionaries.ts`. -/
structure Dictionary where
  characters : String
  problemPairs : List String
  description : String
deriving DecidableEq

/-- `DICTIONARY_OPTIONS` from `src/utils/dictionaries.ts`. -/
def DICTIONARY_OPTIONS : List (String × String) :=
  [("latin-normal", "Latin Normal"),
   ("latin-concise", "Latin Concise"),
   ("latin-expansive", "Latin Expansive"),
   ("latin-punctuation", "Latin + Punctuation"),
   ("numbers", "Numbers"),
   ("all-pairs", "All Kerning Pairs"),
   ("custom", "Custom")]

/-- `CHARACTERS.latinUppercase`. -/
def latinUppercase : String := "ABCDEFGHIJKLMNOPQRSTUVWXYZ"

/-- `CHARACTERS.latinLowercase`. -/
def latinLowercase : String := "abcdefghijklmnopqrstuvwxyz"

/-- `CHARACTERS.numbers`. -/
def numbersChars : String := "0123456789"

/-- `CHARACTERS.basicPunctuation` (braces escaped as `\x7b`/`\x7d`,
apostrophe as `\x27`). -/
def basicPunctuation : String := ".,;:!?\"\x27()[]\x7b\x7d<>/-_"

/-- `CHARACTERS.extendedPunctuation` (backslash `\x5c`, backtick `\x60`). -/
def extendedPunctuation : String :=
  ".,;:!?\"\x27()[]\x7b\x7d<>/-_@#$%^&*+=\x5c|~\x60"

/-- `CHARACTERS.latinAccented`. -/
def latinAccented : String :=
  "ÀÁÂÃÄÅÆÇÈÉÊËÌÍÎÏÐÑÒÓÔÕÖØÙÚÛÜÝÞßàáâãäåæçèéêëìíîïðñòóôõöøùúûüýþÿ"

/-- `CHARACTERS.specialChars`. -/
def specialChars : String := "§©®™°†‡•"

/-- `PROBLEM_PAIRS` from `src/utils/dictionaries.ts`. -/
def PROBLEM_PAIRS : List String :=
  ["AV", "AW", "AY", "FA", "LT", "PA", "TA", "Th", "Tr", "Tu", "Ty", "VA",
   "WA", "We", "Yo",
   "av", "aw", "ay", "fa", "fi", "fl", "lt", "ty", "va", "wa", "we",
   "To", "Ta", "Te", "Wa",
   "17", "10", "71"]

/-- `DICTIONARIES` from `src/utils/dictionaries.ts`.  The source keeps one
mutable `custom` profile whose `characters` field is assigned from UI
state (`dictionaries.characters = customDictionary` in the
KerningComparison `useEffect`); that module-level mutable state is
threaded through as the explicit `customChars` parameter. -/
def DICTIONARIES (customChars : String) : List (String × Dictionary) :=
  [("latin-concise",
    { characters := latinUppercase ++ latinLowercase ++ numbersChars ++
        basicPunctuation,
      problemPairs := PROBLEM_PAIRS,
      description := "Basic Latin characters with common punctuation. Focuses on the most essential kerning pairs." }),
   ("latin-normal",
    { characters := latinUppercase ++ latinLowercase ++ numbersChars ++
        basicPunctuation ++ latinAccented,
      problemPairs := PROBLEM_PAIRS,
      description := "Standard Latin characters including accented characters and basic punctuation." }),
   ("latin-expansive",
    { characters := latinUppercase ++ latinLowercase ++ numbersChars ++
        extendedPunctuation ++ latinAccented ++ specialChars,
      problemPairs := PROBLEM_PAIRS,
      description := "Comprehensive Latin character set with extended punctuation and special typographic characters." }),
   ("latin-punctuation",
    { characters := latinUppercase ++ latinLowercase ++ extendedPunctuation,
      problemPairs := [],
      description := "Focuses on kerning between letters and punctuation marks." }),
   ("numbers",
    { characters := numbersChars ++ ".,-%$€£¥",
      problemPairs := ["10", "11", "17", "70", "71", "00", "-1", ".0", ",0",
        "7.", "7,"],
      description := "Focuses on numerals and monetary symbols." }),
   ("custom",
    { characters := customChars,
      problemPairs := [],
      description := "Custom character set defined by the user." }),
   ("all-pairs",
    { characters := "",
      problemPairs := PROBLEM_PAIRS,
      description := "Show all kerning pairs available in the fonts without filtering." })]

/-- `getDictionary` from `src/utils/dictionaries.ts`: unknown ids fall
back to `latin-normal`. -/
def getDictionary (customChars : String) (dictionaryId : String) :
    Dictionary :=
  match (DICTIONARIES customChars).lookup dictionaryId with
  | some d => d
  | none =>
      { characters := latinUppercase ++ latinLowercase ++ numbersChars ++
          basicPunctuation ++ latinAccented,
        problemPairs := PROBLEM_PAIRS,
        description := "Standard Latin characters including accented characters and basic punctuation." }

/-- `filterPairsByDictionary` from `src/utils/dictionaries.ts`.  The
char set built by `new Set(dictionary.characters.split(''))` is the list
of one-character strings; `const [left, right] = pairKey.split(',')`
is `jsSplitComma` with `undefined` modelled as `""`. -/
def filterPairsByDictionary (customChars : String)
    (kerningPairs : List (String × Int)) (dictionaryId : String) :
    List (String × Int) :=
  if dictionaryId = "all-pairs" ∨ dictionaryId = "custom" then kerningPairs
  else
    let dictionary := getDictionary customChars dictionaryId
    let charSet : List String := dictionary.characters.data.map charToStr
    if charSet = [] then kerningPairs
    else
      kerningPairs.filter (fun kv =>
        let parts := jsSplitComma kv.1
        let left := (parts.get? 0).getD ""
        let right := (parts.get? 1).getD ""
        charSet.contains left && charSet.contains right)

/-! ### App.tsx — compareKerningTables -/

/-- Status of a comparison item (`'match' | 'different' | 'only-before'
| 'only-after'`). -/
inductive Status where
  | match' : Status
  | different : Status
  | onlyBefore : Status
  | onlyAfter : Status
deriving DecidableEq

/-- `ComparisonItem` as pushed by `compareKerningTables` (App.tsx);
`null` values are `none`. -/
structure ComparisonItem where
  left : String
  right : String
  pair : String
  beforeValue : Option Int
  afterValue : Option Int
  difference : Int
  status : Status
deriving DecidableEq

/-- The union of the two filtered key sets:
`new Set([...Object.keys(fb), ...Object.keys(fa)])` in insertion order. -/
def unionKeys (fb fa : List (String × Int)) : List String :=
  jsSetOfList (fb.map Prod.fst ++ fa.map Prod.fst)

/-- Body of the `allPairKeys.forEach` loop of `compareKerningTables`:
classify one pair key against the two filtered mappings. -/
def classifyKey (fb fa : List (String × Int)) (discrepancyUnits : Int)
    (k : String) : ComparisonItem :=
  let parts := jsSplitComma k
  let left := (parts.get? 0).getD ""
  let right := (parts.get? 1).getD ""
  match fb.lookup k, fa.lookup k with
  | some beforeValue, some afterValue =>
      let difference := afterValue - beforeValue
      if jsAbs difference ≤ discrepancyUnits then
        { left := left, right := right, pair := left ++ right,
          beforeValue := some beforeValue, afterValue := some afterValue,
          difference := difference, status := .match' }
      else
        { left := left, right := right, pair := left ++ right,
          beforeValue := some beforeValue, afterValue := some afterValue,
          difference := difference, status := .different }
  | some beforeValue, none =>
      { left := left, right := right, pair := left ++ right,
        beforeValue := some beforeValue, afterValue := none,
        difference := 0, status := .onlyBefore }
  | none, afterValue =>
      { left := left, right := right, pair := left ++ right,
        beforeValue := none, afterValue := afterValue,
        difference := 0, status := .onlyAfter }

/-- `statusPriority` record of the sort comparator. -/
def statusPriority : Status → Int
  | .different => 0
  | .onlyBefore => 1
  | .onlyAfter => 2
  | .match' => 3

/-- Model of `a.localeCompare(b)`: negative, zero or positive according
to the string order (the host collation is modelled as the code-point
order). -/
def localeCompare (a b : String) : Int :=
  if a < b then -1 else if b < a then 1 else 0

/-- The sort comparator of `compareKerningTables` (App.tsx lines
450-472). -/
def compareItems (a b : ComparisonItem) : Int :=
  if statusPriority a.status ≠ statusPriority b.status then
    statusPriority a.status - statusPriority b.status
  else if a.status = .different ∧ b.status = .different then
    jsAbs b.difference - jsAbs a.difference
  else
    localeCompare a.left b.left

/-- `comparisons.sort(comparator)`.  `Array.prototype.sort` with a
consistent comparator returns a stable permutation sorted by the
comparator, which is exactly what a stable insertion sort by
`compareItems a b ≤ 0` produces. -/
def sortComparisons (l : List ComparisonItem) : List ComparisonItem :=
  l.insertionSort (fun a b => compareItems a b ≤ 0)

/-- The `stats` record of the comparison result.  The loop counters
`matchCount` etc. count exactly the items of each status. -/
structure Stats where
  totalPairs : Nat
  matchCount : Nat
  differenceCount : Nat
  onlyInBeforeCount : Nat
  onlyInAfterCount : Nat
  beforeTotal : Nat
  afterTotal : Nat
deriving DecidableEq

/-- Comparison result (`comparisons` plus `stats`; the
`spacingCandidates` and `kerningScope` analytics fields are not touched
by any claim and are omitted). -/
structure ComparisonResult where
  comparisons : List ComparisonItem
  stats : Stats
deriving DecidableEq

/-- Error message of the pre-filter empty check. -/
def noPairsError : String :=
  "No kerning pairs found in either font. Try a different font file or check font format support."

/-- `DICTIONARY_OPTIONS[dictionary]` interpolated into a template
string; JS renders a missing key as `undefined`. -/
def dictionaryLabel (dictionary : String) : String :=
  (DICTIONARY_OPTIONS.lookup dictionary).getD "undefined"

/-- Error message of the post-filter empty check, naming the selected
dictionary. -/
def emptyFilterError (dictionary : String) : String :=
  "No kerning pairs found after filtering with the \"" ++
    dictionaryLabel dictionary ++ "\" dictionary. Try a different dictionary."

/-- The unsorted comparison list built by the `forEach` loop. -/
def buildComparisons (fb fa : List (String × Int))
    (discrepancyUnits : Int) : List ComparisonItem :=
  (unionKeys fb fa).map (classifyKey fb fa discrepancyUnits)

/-- Count items of a given status. -/
def countStatus (s : Status) (l : List ComparisonItem) : Nat :=
  l.countP (fun c => c.status = s)

/-- `compareKerningTables` from App.tsx, as a function from the two raw
kerning mappings, the selected dictionary, the custom-dictionary
character set and the tolerance to either an error message (the source
reports it via `setError` and produces no result) or a comparison
result. -/
def compareKerningTables (beforePairs afterPairs : List (String × Int))
    (dictionary : String) (customChars : String)
    (discrepancyUnits : Int) : Except String ComparisonResult :=
  if beforePairs.length = 0 ∧ afterPairs.length = 0 then
    .error noPairsError
  else
    let fb := filterPairsByDictionary customChars beforePairs dictionary
    let fa := filterPairsByDictionary customChars afterPairs dictionary
    if fb.length = 0 ∧ fa.length = 0 then
      .error (emptyFilterError dictionary)
    else
      let comparisons := buildComparisons fb fa discrepancyUnits
      .ok
        { comparisons := sortComparisons comparisons,
          stats :=
            { totalPairs := (unionKeys fb fa).length,
              matchCount := countStatus .match' comparisons,
              differenceCount := countStatus .different comparisons,
              onlyInBeforeCount := countStatus .onlyBefore comparisons,
              onlyInAfterCount := countStatus .onlyAfter comparisons,
              beforeTotal := fb.length,
              afterTotal := fa.length } }

/-! ### fontUtils.ts — extractKerningPairs -/

/-- A parsed font object as used by `extractKerningPairs`: the two
lookup capabilities are optional (`typeof f.x === 'function'` checks)
and each call can throw (`Except.error`).  Glyph handles are opaque
naturals. -/
structure Font where
  charToGlyph : Option (Char → Except String Nat)
  getKerningValue : Option (Nat → Nat → Except String Int)

/-- The fixed candidate character set of `extractKerningPairs`
(fontUtils.ts line 71; braces written `\x7b`/`\x7d`, apostrophe
`\x27`). -/
def characters : String :=
  "ABCDEFGHIJKLMNOPQRSTUVWXYZabcdefghijklmnopqrstuvwxyz0123456789.,;:!?\"\x27()[]\x7b\x7d<>/-_"

/-- The candidate characters as a list. -/
def charList : List Char := characters.data

/-- Cartesian product of two character lists in the order of the two
nested `for` loops (left index outer). -/
def cartesianPairs : List Char → List Char → List (Char × Char)
  | [], _ => []
  | x :: xs, ys => ys.map (fun y => (x, y)) ++ cartesianPairs xs ys

/-- Body of the `try` block for one candidate pair: resolve both glyphs
and query the kerning value; any thrown error gives `none` (the `catch`
arm logs and skips). -/
def tryPair (ctg : Char → Except String Nat)
    (gkv : Nat → Nat → Except String Int) (lc rc : Char) : Option Int :=
  match ctg lc with
  | .error _ => none
  | .ok leftGlyph =>
      match ctg rc with
      | .error _ => none
      | .ok rightGlyph =>
          match gkv leftGlyph rightGlyph with
          | .error _ => none
          | .ok v => some v

/-- The entry list accumulated by the two nested loops.  Every iteration
uses a distinct pair key (the candidate characters are pairwise
distinct, see `charList_nodup`), so each successful non-zero assignment
appends a fresh entry to the record. -/
def extractPairsList (ctg : Char → Except String Nat)
    (gkv : Nat → Nat → Except String Int) : List (String × Int) :=
  (cartesianPairs charList charList).filterMap (fun p =>
    match tryPair ctg gkv p.1 p.2 with
    | some kerningValue =>
        if kerningValue ≠ 0 then some (pairKey p.1 p.2, kerningValue)
        else none
    | none => none)

/-- `extractKerningPairs` from fontUtils.ts.  The result type is
`Except` so that "throws an error" is expressible; the source function
itself always returns normally (`.ok`), returning `{}` after a
`console.error` when the font is missing the required methods. -/
def extractKerningPairs (font : Option Font) :
    Except String (List (String × Int)) :=
  match font with
  | none => .ok []
  | some f =>
      match f.charToGlyph, f.getKerningValue with
      | some ctg, some gkv => .ok (extractPairsList ctg gkv)
      | some _, none => .ok []
      | none, _ => .ok []

/-! ### KerningComparison — reclassify effect and asymmetry detection -/

/-- One step of the reclassification `map` in the `useEffect` on
`discrepancyUnits` (KerningComparison lines 452-507): only the `status`
field is rewritten. -/
def reclassifyItem (discrepancyUnits : Int) (comp : ComparisonItem) :
    ComparisonItem :=
  match comp.beforeValue, comp.afterValue with
  | some beforeValue, some afterValue =>
      let difference := afterValue - beforeValue
      if jsAbs difference ≤ discrepancyUnits then
        { comp with status := .match' }
      else
        { comp with status := .different }
  | some _, none => { comp with status := .onlyBefore }
  | none, _ => { comp with status := .onlyAfter }

/-- The `updatedComparisons` array of the reclassification effect. -/
def reclassifyComparisons (discrepancyUnits : Int)
    (l : List ComparisonItem) : List ComparisonItem :=
  l.map (reclassifyItem discrepancyUnits)

/-- The classification rule applied by both `compareKerningTables` and
the reclassification effect, as a function of the two optional values. -/
def statusFor (discrepancyUnits : Int) :
    Option Int → Option Int → Status
  | some beforeValue, some afterValue =>
      if jsAbs (afterValue - beforeValue) ≤ discrepancyUnits then .match'
      else .different
  | some _, none => .onlyBefore
  | none, _ => .onlyAfter

/-- Which side of the comparison an analytics helper reads
(`fontKey === 'before' ? 'beforeValue' : 'afterValue'`). -/
inductive FontKey where
  | before : FontKey
  | after : FontKey
deriving DecidableEq

/-- `comp[valueProp]` for the selected side. -/
def sideValue (fk : FontKey) (c : ComparisonItem) : Option Int :=
  match fk with
  | .before => c.beforeValue
  | .after => c.afterValue

/-- An entry of the asymmetry report (`AsymmetricPair`). -/
structure AsymmetricPair where
  pair : String
  reversePair : String
  value : Int
  reverseValue : Int
  difference : Int
deriving DecidableEq

/-- The `validPairs` filter of the analytics helpers. -/
def validPairs (comparisons : List ComparisonItem) (fk : FontKey) :
    List ComparisonItem :=
  comparisons.filter (fun c => (sideValue fk c).isSome)

/-- The `pairMap` of `getAsymmetricPairs`: all valid pairs keyed by
`` `${comp.left},${comp.right}` ``. -/
def asymmetryPairMap (comparisons : List ComparisonItem) (fk : FontKey) :
    List (String × Int) :=
  (validPairs comparisons fk).map
    (fun c => (c.left ++ "," ++ c.right, (sideValue fk c).getD 0))

/-- The `asymmetries` array of `getAsymmetricPairs` before sorting: one
candidate entry per valid pair whose reverse key is in the map and whose
absolute value difference exceeds 10. -/
def asymmetryCandidates (comparisons : List ComparisonItem)
    (fk : FontKey) : List AsymmetricPair :=
  (validPairs comparisons fk).filterMap (fun comp =>
    match jsMapGet (asymmetryPairMap comparisons fk)
        (comp.right ++ "," ++ comp.left) with
    | some reverseValue =>
        let value := (sideValue fk comp).getD 0
        let difference := jsAbs (value - reverseValue)
        if difference > 10 then
          some { pair := comp.pair,
                 reversePair := comp.right ++ comp.left,
                 value := value, reverseValue := reverseValue,
                 difference := difference }
        else none
    | none => none)

/-- `getAsymmetricPairs` (KerningComparison lines 560-599): sort the
candidates by difference, largest first, and return the top 5. -/
def getAsymmetricPairs (comparisons : List ComparisonItem)
    (fk : FontKey) : List AsymmetricPair :=
  ((asymmetryCandidates comparisons fk).insertionSort
    (fun a b => b.difference ≤ a.difference)).take 5

/-! ### Statements derived from the specification -/

/-- The ordering the specification prescribes for the sorted comparison
list: status priority first (`different`, `only-before`, `only-after`,
`match`); inside the `different` group descending absolute difference;
inside any other same-status group ascending by left character. -/
def sortSpec (x y : ComparisonItem) : Prop :=
  statusPriority x.status < statusPriority y.status ∨
  (x.status = y.status ∧ x.status = .different ∧
    jsAbs y.difference ≤ jsAbs x.difference) ∨
  (x.status = y.status ∧ x.status ≠ .different ∧ x.left ≤ y.left)

/-- A kerning mapping given as explicit (left, right) character pairs,
encoded with the extractor's `` `${left},${right}` `` string keys. -/
def encodeMapping (m : List ((Char × Char) × Int)) : List (String × Int) :=
  m.map (fun e => (pairKey e.1.1 e.1.2, e.2))

/-- The dictionary-filter contract exactly as the specification words
it (spec §4.2): the filtered mapping keeps exactly the entries whose
left and right characters are both members of the dictionary's
character set, and an empty character set makes the filter the
identity.  This definition follows the spec, not the code, and is
compared against `filterPairsByDictionary`. -/
def dictionaryFilterSpec (customChars : String)
    (m : List ((Char × Char) × Int)) (dictionaryId : String) : Prop :=
  if (getDictionary customChars dictionaryId).characters = "" then
    filterPairsByDictionary customChars (encodeMapping m) dictionaryId =
      encodeMapping m
  else
    filterPairsByDictionary customChars (encodeMapping m) dictionaryId =
      encodeMapping (m.filter (fun e =>
        decide (e.1.1 ∈
          (getDictionary customChars dictionaryId).characters.data) &&
        decide (e.1.2 ∈
          (getDictionary customChars dictionaryId).characters.data)))

/-! ### Concrete example data used by witnesses -/

/-- A font object missing both lookup capabilities. -/
def fontNoCaps : Font := { charToGlyph := none, getKerningValue := none }

/-- Example glyph lookup that always succeeds (glyph handle = code
point). -/
def ctgEx : Char → Except String Nat := fun c => .ok c.toNat

/-- Example kerning lookup: -50 for the glyph pair of (A, V), else 0. -/
def gkvEx : Nat → Nat → Except String Int :=
  fun l r => if l = 65 ∧ r = 86 then .ok (-50) else .ok 0

/-- Comparison item for "A,V" value -50 on the before side. -/
def avItemB : ComparisonItem :=
  { left := "A", right := "V", pair := "AV", beforeValue := some (-50),
    afterValue := none, difference := 0, status := .onlyBefore }

/-- Comparison item for "V,A" value -20 on the before side. -/
def vaItemB20 : ComparisonItem :=
  { left := "V", right := "A", pair := "VA", beforeValue := some (-20),
    afterValue := none, difference := 0, status := .onlyBefore }

/-- Comparison item for "V,A" value -45 on the before side. -/
def vaItemB45 : ComparisonItem :=
  { left := "V", right := "A", pair := "VA", beforeValue := some (-45),
    afterValue := none, difference := 0, status := .onlyBefore }

/-- Before-side values `{"A,V": -50, "V,A": -20}` of the asymmetry
scenario. -/
def asymEx1 : List ComparisonItem := [avItemB, vaItemB20]

/-- Before-side values `{"A,V": -50, "V,A": -45}` of the asymmetry
scenario. -/
def asymEx2 : List ComparisonItem := [avItemB, vaItemB45]

/-- The comparison result for `{"A,V": -50, "T,o": -30}` vs
`{"A,V": -45, "F,i": -10}` at tolerance 5 (the spec's basic-diff
scenario), in sorted order. -/
def c6Res : ComparisonResult :=
  { comparisons :=
      [{ left := "T", right := "o", pair := "To", beforeValue := some (-30),
         afterValue := none, difference := 0, status := .onlyBefore },
       { left := "F", right := "i", pair := "Fi", beforeValue := none,
         afterValue := some (-10), difference := 0, status := .onlyAfter },
       { left := "A", right := "V", pair := "AV", beforeValue := some (-50),
         afterValue := some (-45), difference := 5, status := .match' }],
    stats := { totalPairs := 3, matchCount := 1, differenceCount := 0,
               onlyInBeforeCount := 1, onlyInAfterCount := 1,
               beforeTotal := 2, afterTotal := 2 } }

/-- The single item produced by comparing `{"A,V": -50}` with `{}`. -/
def c1Item : ComparisonItem :=
  { left := "A", right := "V", pair := "AV", beforeValue := some (-50),
    afterValue := none, difference := 0, status := .onlyBefore }

/-- The comparison result for `{"A,V": -50}` vs `{}` at tolerance 5 with
the `all-pairs` dictionary. -/
def c1Res : ComparisonResult :=
  { comparisons := [c1Item],
    stats := { totalPairs := 1, matchCount := 0, differenceCount := 0,
               onlyInBeforeCount := 1, onlyInAfterCount := 0,
               beforeTotal := 1, afterTotal := 0 } }

/-- The comparison result for `{"A,V": -50}` vs `{"A,V": -45}` at
tolerance 4 (the spec's tolerance-boundary scenario: diff 5 > 4). -/
def c8Res : ComparisonResult :=
  { comparisons :=
      [{ left := "A", right := "V", pair := "AV", beforeValue := some (-50),
         afterValue := some (-45), difference := 5, status := .different }],
    stats := { totalPairs := 1, matchCount := 0, differenceCount := 1,
               onlyInBeforeCount := 0, onlyInAfterCount := 0,
               beforeTotal := 1, afterTotal := 1 } }

/-! ### Basic lemmas about the JS collection models -/

theorem lookup_isSome_key_iff (l : List (String × Int)) (k : String) :
    (l.lookup k).isSome ↔ k ∈ l.map Prod.fst := by
  rw [List.lookup_isSome_iff]
  simp only [beq_iff_eq, List.mem_map]
  constructor
  · rintro ⟨p, hp, rfl⟩; exact ⟨p, hp, rfl⟩
  · rintro ⟨p, hp, rfl⟩; exact ⟨p, hp, rfl⟩

theorem lookup_eq_some_iff_of_nodup {l : List (String × Int)}
    (h : (l.map Prod.fst).Nodup) (k : String) (v : Int) :
    l.lookup k = some v ↔ (k, v) ∈ l := by
  induction l with
  | nil => simp
  | cons p rest ih =>
      cases p with
      | mk a b =>
          simp only [List.map_cons, List.nodup_cons] at h
          by_cases hk : k = a
          · subst hk
            simp only [List.lookup_cons_self, List.mem_cons, Option.some.injEq]
            constructor
            · rintro rfl; exact Or.inl rfl
            · rintro (hv | hv)
              · exact (Prod.mk.injEq .. ▸ hv).2.symm
              · exact absurd (List.mem_map_of_mem Prod.fst hv) h.1
          · have hb : (k == a) = false := beq_false_of_ne hk
            rw [List.lookup_cons, hb]
            show rest.lookup k = some v ↔ (k, v) ∈ (a, b) :: rest
            rw [ih h.2, List.mem_cons]
            constructor
            · exact fun hv => Or.inr hv
            · rintro (hv | hv)
              · exact absurd (congrArg Prod.fst hv) hk
              · exact hv

theorem mem_setAddAll (ks : List String) :
    ∀ (seen : List String) (k : String),
      k ∈ setAddAll seen ks ↔ k ∈ ks ∧ k ∉ seen := by
  induction ks with
  | nil => intro seen k; simp [setAddAll]
  | cons a rest ih =>
      intro seen k
      by_cases ha : a ∈ seen
      · simp only [setAddAll, if_pos ha, ih, List.mem_cons]
        constructor
        · rintro ⟨h1, h2⟩; exact ⟨Or.inr h1, h2⟩
        · rintro ⟨h1 | h1, h2⟩
          · subst h1; exact absurd ha h2
          · exact ⟨h1, h2⟩
      · simp only [setAddAll, if_neg ha, List.mem_cons, ih]
        by_cases hk : k = a
        · subst hk; simp [ha]
        · simp only [hk, false_or]

theorem nodup_setAddAll (ks : List String) :
    ∀ seen : List String, (setAddAll seen ks).Nodup := by
  induction ks with
  | nil => intro seen; simp [setAddAll]
  | cons a rest ih =>
      intro seen
      by_cases ha : a ∈ seen
      · simpa [setAddAll, if_pos ha] using ih seen
      · simp only [setAddAll, if_neg ha, List.nodup_cons]
        refine ⟨fun hmem => ?_, ih (a :: seen)⟩
        rw [mem_setAddAll] at hmem
        exact hmem.2 (List.mem_cons_self a seen)

theorem mem_jsSetOfList (ks : List String) (k : String) :
    k ∈ jsSetOfList ks ↔ k ∈ ks := by
  simp [jsSetOfList, mem_setAddAll]

theorem nodup_jsSetOfList (ks : List String) : (jsSetOfList ks).Nodup :=
  nodup_setAddAll ks []

theorem mem_unionKeys (fb fa : List (String × Int)) (k : String) :
    k ∈ unionKeys fb fa ↔ k ∈ fb.map Prod.fst ∨ k ∈ fa.map Prod.fst := by
  simp [unionKeys, mem_jsSetOfList]

theorem nodup_unionKeys (fb fa : List (String × Int)) :
    (unionKeys fb fa).Nodup :=
  nodup_jsSetOfList _

theorem classifyKey_beforeValue (fb fa : List (String × Int)) (t : Int)
    (k : String) : (classifyKey fb fa t k).beforeValue = fb.lookup k := by
  unfold classifyKey
  rcases fb.lookup k with _ | bv <;> rcases fa.lookup k with _ | av <;>
    simp only []
  split <;> rfl

theorem classifyKey_afterValue (fb fa : List (String × Int)) (t : Int)
    (k : String) : (classifyKey fb fa t k).afterValue = fa.lookup k := by
  unfold classifyKey
  rcases fb.lookup k with _ | bv <;> rcases fa.lookup k with _ | av <;>
    simp only []
  split <;> rfl

theorem classifyKey_status (fb fa : List (String × Int)) (t : Int)
    (k : String) :
    (classifyKey fb fa t k).status = statusFor t (fb.lookup k) (fa.lookup k) := by
  unfold classifyKey statusFor
  rcases fb.lookup k with _ | bv <;> rcases fa.lookup k with _ | av <;>
    simp only []
  split <;> rfl

theorem classifyKey_difference (fb fa : List (String × Int)) (t : Int)
    (k : String) :
    (classifyKey fb fa t k).difference =
      (match fb.lookup k, fa.lookup k with
       | some bv, some av => av - bv
       | _, _ => (0 : Int)) := by
  unfold classifyKey
  rcases fb.lookup k with _ | bv <;> rcases fa.lookup k with _ | av <;>
    simp only []
  split <;> rfl

theorem compare_ok_eq {b a : List (String × Int)} {d cc : String} {t : Int}
    {res : ComparisonResult}
    (h : compareKerningTables b a d cc t = .ok res) :
    res.comparisons =
      sortComparisons (buildComparisons
        (filterPairsByDictionary cc b d) (filterPairsByDictionary cc a d) t) ∧
    res.stats =
      { totalPairs := (unionKeys (filterPairsByDictionary cc b d)
          (filterPairsByDictionary cc a d)).length,
        matchCount := countStatus .match' (buildComparisons
          (filterPairsByDictionary cc b d) (filterPairsByDictionary cc a d) t),
        differenceCount := countStatus .different (buildComparisons
          (filterPairsByDictionary cc b d) (filterPairsByDictionary cc a d) t),
        onlyInBeforeCount := countStatus .onlyBefore (buildComparisons
          (filterPairsByDictionary cc b d) (filterPairsByDictionary cc a d) t),
        onlyInAfterCount := countStatus .onlyAfter (buildComparisons
          (filterPairsByDictionary cc b d) (filterPairsByDictionary cc a d) t),
        beforeTotal := (filterPairsByDictionary cc b d).length,
        afterTotal := (filterPairsByDictionary cc a d).length } := by
  unfold compareKerningTables at h
  split at h
  · exact absurd h (by simp)
  · simp only [] at h
    split at h
    · exact absurd h (by simp)
    · rw [Except.ok.injEq] at h
      subst h
      exact ⟨rfl, rfl⟩

theorem mem_sortComparisons {c : ComparisonItem} {l : List ComparisonItem} :
    c ∈ sortComparisons l ↔ c ∈ l := by
  simp [sortComparisons, List.mem_insertionSort]

theorem sortComparisons_perm (l : List ComparisonItem) :
    (sortComparisons l).Perm l :=
  List.perm_insertionSort _ l

theorem statusFor_spec (t : Int) (bo ao : Option Int)
    (hne : bo.isSome ∨ ao.isSome) :
    (statusFor t bo ao = .match' ↔
      ∃ bv av, bo = some bv ∧ ao = some av ∧ jsAbs (av - bv) ≤ t) ∧
    (statusFor t bo ao = .different ↔
      ∃ bv av, bo = some bv ∧ ao = some av ∧ t < jsAbs (av - bv)) ∧
    (statusFor t bo ao = .onlyBefore ↔ bo.isSome ∧ ao = none) ∧
    (statusFor t bo ao = .onlyAfter ↔ bo = none ∧ ao.isSome) := by
  rcases bo with _ | bv <;> rcases ao with _ | av
  · simp at hne
  · simp [statusFor]
  · simp [statusFor]
  · by_cases h : jsAbs (av - bv) ≤ t
    · simp [statusFor, h, not_lt.mpr h]
    · simp [statusFor, h, not_le.mp h]

theorem unionKeys_lookup_present {fb fa : List (String × Int)} {k : String}
    (hk : k ∈ unionKeys fb fa) :
    (fb.lookup k).isSome ∨ (fa.lookup k).isSome := by
  rcases (mem_unionKeys fb fa k).mp hk with h | h
  · exact Or.inl ((lookup_isSome_key_iff fb k).mpr h)
  · exact Or.inr ((lookup_isSome_key_iff fa k).mpr h)

/-- C1: each comparison item produced by the differ has status `match`
iff both values are present and the absolute difference is at most the
tolerance, `different` iff both are present and the absolute difference
exceeds the tolerance, `only-before` iff only the before value is
present, `only-after` iff only the after value is present (the four
right-hand conditions are mutually exclusive and exhaustive, so exactly
one status holds per item), and the `difference` field equals
`afterValue - beforeValue` when both values are present and `0`
otherwise. -/
theorem c1_item_status_invariant (b a : List (String × Int))
    (d cc : String) (t : Int) (res : ComparisonResult)
    (hok : compareKerningTables b a d cc t = .ok res) :
    ∀ item ∈ res.comparisons,
      (item.status = .match' ↔ ∃ bv av, item.beforeValue = some bv ∧
          item.afterValue = some av ∧ jsAbs (av - bv) ≤ t) ∧
      (item.status = .different ↔ ∃ bv av, item.beforeValue = some bv ∧
          item.afterValue = some av ∧ t < jsAbs (av - bv)) ∧
      (item.status = .onlyBefore ↔ item.beforeValue.isSome ∧
          item.afterValue = none) ∧
      (item.status = .onlyAfter ↔ item.beforeValue = none ∧
          item.afterValue.isSome) ∧
      ((∃ bv av, item.beforeValue = some bv ∧ item.afterValue = some av ∧
          item.difference = av - bv) ∨
        ((item.beforeValue = none ∨ item.afterValue = none) ∧
          item.difference = 0)) := by
  intro item hitem
  obtain ⟨hcomp, _⟩ := compare_ok_eq hok
  rw [hcomp, mem_sortComparisons] at hitem
  unfold buildComparisons at hitem
  obtain ⟨k, hk, rfl⟩ := List.mem_map.mp hitem
  have hne := unionKeys_lookup_present hk
  rw [classifyKey_beforeValue, classifyKey_afterValue, classifyKey_status,
    classifyKey_difference]
  obtain ⟨h1, h2, h3, h4⟩ := statusFor_spec t _ _ hne
  refine ⟨h1, h2, h3, h4, ?_⟩
  rcases hb : (filterPairsByDictionary cc b d).lookup k with _ | bv <;>
    rcases ha : (filterPairsByDictionary cc a d).lookup k with _ | av
  · exact Or.inr ⟨Or.inl rfl, rfl⟩
  · exact Or.inr ⟨Or.inl rfl, rfl⟩
  · exact Or.inr ⟨Or.inr rfl, rfl⟩
  · exact Or.inl ⟨bv, av, rfl, rfl, rfl⟩

theorem c1_item_status_invariant_witness :
    compareKerningTables [("A,V", -50)] [] "all-pairs" "" 5 = .ok c1Res ∧
    (c1Item.status = Status.onlyBefore ↔
      c1Item.beforeValue.isSome ∧ c1Item.afterValue = none) :=
  ⟨rfl,
    (c1_item_status_invariant [("A,V", -50)] [] "all-pairs" "" 5 c1Res rfl
      c1Item (by simp [c1Res])).2.2.1⟩

/-- C2: a successful comparison has exactly one item per key in the
union of the two filtered mappings' key sets: the item list length
equals the size of that union (the union key list has no duplicates and
contains exactly the keys present in either filtered mapping, and the
item list is a permutation of the one-item-per-union-key list), and the
reported `totalPairs` equals the union size while `beforeTotal` and
`afterTotal` equal the sizes of the filtered input mappings. -/
theorem c2_union_completeness (b a : List (String × Int)) (d cc : String)
    (t : Int) (res : ComparisonResult)
    (hok : compareKerningTables b a d cc t = .ok res) :
    res.comparisons.length =
      (unionKeys (filterPairsByDictionary cc b d)
        (filterPairsByDictionary cc a d)).length ∧
    (unionKeys (filterPairsByDictionary cc b d)
      (filterPairsByDictionary cc a d)).Nodup ∧
    (∀ k, k ∈ unionKeys (filterPairsByDictionary cc b d)
        (filterPairsByDictionary cc a d) ↔
      k ∈ (filterPairsByDictionary cc b d).map Prod.fst ∨
      k ∈ (filterPairsByDictionary cc a d).map Prod.fst) ∧
    res.comparisons.Perm
      ((unionKeys (filterPairsByDictionary cc b d)
          (filterPairsByDictionary cc a d)).map
        (classifyKey (filterPairsByDictionary cc b d)
          (filterPairsByDictionary cc a d) t)) ∧
    res.stats.totalPairs =
      (unionKeys (filterPairsByDictionary cc b d)
        (filterPairsByDictionary cc a d)).length ∧
    res.stats.beforeTotal = (filterPairsByDictionary cc b d).length ∧
    res.stats.afterTotal = (filterPairsByDictionary cc a d).length := by
  obtain ⟨hcomp, hstats⟩ := compare_ok_eq hok
  refine ⟨?_, nodup_unionKeys _ _, fun k => mem_unionKeys _ _ k, ?_, ?_, ?_, ?_⟩
  · rw [hcomp]
    simp [sortComparisons, buildComparisons]
  · rw [hcomp]
    exact (sortComparisons_perm _)
  · rw [hstats]
  · rw [hstats]
  · rw [hstats]

theorem c2_union_completeness_witness :
    compareKerningTables [("A,V", -50)] [] "all-pairs" "" 5 = .ok c1Res ∧
    c1Res.stats.totalPairs =
      (unionKeys (filterPairsByDictionary "" [("A,V", -50)] "all-pairs")
        (filterPairsByDictionary "" [] "all-pairs")).length :=
  ⟨rfl,
    (c2_union_completeness [("A,V", -50)] [] "all-pairs" "" 5 c1Res
      rfl).2.2.2.2.1⟩

theorem statusPriority_injective {s u : Status}
    (h : statusPriority s = statusPriority u) : s = u := by
  cases s <;> cases u <;> first | rfl | (exfalso; simp [statusPriority] at h)

theorem compareItems_le_iff (x y : ComparisonItem) :
    compareItems x y ≤ 0 ↔
      (statusPriority x.status < statusPriority y.status ∨
       (x.status = y.status ∧ x.status = .different ∧
         jsAbs y.difference ≤ jsAbs x.difference) ∨
       (x.status = y.status ∧ x.status ≠ .different ∧ x.left ≤ y.left)) := by
  unfold compareItems
  by_cases hp : statusPriority x.status ≠ statusPriority y.status
  · rw [if_pos hp]
    constructor
    · intro h
      left
      rcases lt_or_ge (statusPriority x.status) (statusPriority y.status)
        with hlt | hge
      · exact hlt
      · exact absurd (le_antisymm (by omega) hge) hp
    · rintro (h | ⟨hs, _⟩ | ⟨hs, _⟩)
      · omega
      · exact absurd (congrArg statusPriority hs) hp
      · exact absurd (congrArg statusPriority hs) hp
  · rw [if_neg hp]
    push_neg at hp
    have hs : x.status = y.status := statusPriority_injective hp
    by_cases hd : x.status = .different
    · have hcond : x.status = .different ∧ y.status = .different :=
        ⟨hd, hs ▸ hd⟩
      rw [if_pos hcond]
      constructor
      · intro h
        exact Or.inr (Or.inl ⟨hs, hd, by omega⟩)
      · rintro (h | ⟨_, _, h⟩ | ⟨_, hnd, _⟩)
        · omega
        · omega
        · exact absurd hd hnd
    · have hcond : ¬(x.status = .different ∧ y.status = .different) :=
        fun hc => hd hc.1
      rw [if_neg hcond]
      unfold localeCompare
      constructor
      · intro h
        refine Or.inr (Or.inr ⟨hs, hd, ?_⟩)
        by_cases h1 : x.left < y.left
        · exact le_of_lt h1
        · by_cases h2 : y.left < x.left
          · rw [if_neg h1, if_pos h2] at h
            omega
          · exact le_of_not_lt h2
      · rintro (h | ⟨_, hdd, _⟩ | ⟨_, _, h⟩)
        · omega
        · exact absurd hdd hd
        · by_cases h1 : x.left < y.left
          · rw [if_pos h1]; omega
          · have h2 : ¬y.left < x.left := not_lt.mpr h
            rw [if_neg h1, if_neg h2]

theorem compareItems_total (x y : ComparisonItem) :
    compareItems x y ≤ 0 ∨ compareItems y x ≤ 0 := by
  rw [compareItems_le_iff, compareItems_le_iff]
  rcases lt_trichotomy (statusPriority x.status) (statusPriority y.status)
    with h | h | h
  · exact Or.inl (Or.inl h)
  · have hs : x.status = y.status := statusPriority_injective h
    by_cases hd : x.status = .different
    · rcases le_total (jsAbs y.difference) (jsAbs x.difference) with ha | ha
      · exact Or.inl (Or.inr (Or.inl ⟨hs, hd, ha⟩))
      · exact Or.inr (Or.inr (Or.inl ⟨hs.symm, hs ▸ hd, ha⟩))
    · rcases le_total x.left y.left with hl | hl
      · exact Or.inl (Or.inr (Or.inr ⟨hs, hd, hl⟩))
      · exact Or.inr (Or.inr (Or.inr ⟨hs.symm, fun hc => hd (hs ▸ hc), hl⟩))
  · exact Or.inr (Or.inl h)

theorem compareItems_trans {x y z : ComparisonItem}
    (hxy : compareItems x y ≤ 0) (hyz : compareItems y z ≤ 0) :
    compareItems x z ≤ 0 := by
  rw [compareItems_le_iff] at hxy hyz ⊢
  rcases hxy with h1 | ⟨hs1, hd1, ha1⟩ | ⟨hs1, hd1, hl1⟩ <;>
    rcases hyz with h2 | ⟨hs2, hd2, ha2⟩ | ⟨hs2, hd2, hl2⟩
  · exact Or.inl (lt_trans h1 h2)
  · exact Or.inl (hs2 ▸ h1)
  · exact Or.inl (hs2 ▸ h1)
  · exact Or.inl (hs1 ▸ h2)
  · exact Or.inr (Or.inl ⟨hs1.trans hs2, hd1, le_trans ha2 ha1⟩)
  · exact absurd (hs1 ▸ hd1) hd2
  · exact Or.inl (hs1 ▸ h2)
  · exact absurd (hs1 ▸ hd2) hd1
  · exact Or.inr (Or.inr ⟨hs1.trans hs2, hd1, le_trans hl1 hl2⟩)

/-- C6: the comparison list of a successful run is sorted by (a) status
priority in the order `different`, `only-before`, `only-after`,
`match`; (b) within the `different` group, descending absolute
difference magnitude; (c) within any other same-status group, ascending
by left character. -/
theorem c6_sorted_output (b a : List (String × Int)) (d cc : String)
    (t : Int) (res : ComparisonResult)
    (hok : compareKerningTables b a d cc t = .ok res) :
    res.comparisons.Pairwise sortSpec := by
  obtain ⟨hcomp, _⟩ := compare_ok_eq hok
  rw [hcomp]
  have hsorted :
      (sortComparisons (buildComparisons
        (filterPairsByDictionary cc b d)
        (filterPairsByDictionary cc a d) t)).Pairwise
        (fun p q => compareItems p q ≤ 0) := by
    unfold sortComparisons
    haveI : IsTotal ComparisonItem (fun p q => compareItems p q ≤ 0) :=
      ⟨compareItems_total⟩
    haveI : IsTrans ComparisonItem (fun p q => compareItems p q ≤ 0) :=
      ⟨fun p q u => compareItems_trans⟩
    exact List.sorted_insertionSort _ _
  refine hsorted.imp ?_
  intro p q hpq
  rw [compareItems_le_iff] at hpq
  exact hpq

theorem c6_sorted_output_witness :
    compareKerningTables [("A,V", -50), ("T,o", -30)]
      [("A,V", -45), ("F,i", -10)] "all-pairs" "" 5 = .ok c6Res ∧
    c6Res.comparisons.Pairwise sortSpec :=
  ⟨rfl,
    c6_sorted_output [("A,V", -50), ("T,o", -30)]
      [("A,V", -45), ("F,i", -10)] "all-pairs" "" 5 c6Res rfl⟩

theorem string_data_append (s u : String) : (s ++ u).data = s.data ++ u.data := by
  cases s; cases u; rfl

/-- C7: the differ fails with the "nothing to compare" error when both
input mappings are empty, and with a distinct dictionary-specific
empty-filter error (whose text embeds the selected dictionary's display
label) when the inputs are not both empty but filtering empties both;
in both cases an error and no comparison result is produced. -/
theorem c7_two_failure_modes (b a : List (String × Int)) (d cc : String)
    (t : Int) :
    (b = [] → a = [] →
      compareKerningTables b a d cc t = .error noPairsError) ∧
    (¬(b.length = 0 ∧ a.length = 0) →
      filterPairsByDictionary cc b d = [] →
      filterPairsByDictionary cc a d = [] →
      compareKerningTables b a d cc t = .error (emptyFilterError d)) ∧
    emptyFilterError d ≠ noPairsError ∧
    (emptyFilterError d).data =
      ("No kerning pairs found after filtering with the \"").data ++
      (dictionaryLabel d).data ++
      ("\" dictionary. Try a different dictionary.").data := by
  refine ⟨?_, ?_, ?_, ?_⟩
  · rintro rfl rfl
    simp [compareKerningTables]
  · intro hne hfb hfa
    unfold compareKerningTables
    rw [if_neg hne, hfb, hfa]
    simp
  · intro h
    have h23 := congrArg (fun s => s.data[23]?) h
    simp only [emptyFilterError, string_data_append, List.append_assoc]
      at h23
    rw [List.getElem?_append_left (by decide)] at h23
    exact absurd h23 (by decide)
  · simp [emptyFilterError, string_data_append]

theorem c7_two_failure_modes_witness :
    compareKerningTables [] [] "numbers" "" 5 = .error noPairsError ∧
    compareKerningTables [("A,V", -50)] [] "numbers" "" 5 =
      .error (emptyFilterError "numbers") :=
  ⟨(c7_two_failure_modes [] [] "numbers" "" 5).1 rfl rfl,
   (c7_two_failure_modes [("A,V", -50)] [] "numbers" "" 5).2.1
     (by simp) rfl rfl⟩

theorem reclassifyItem_beforeValue (t : Int) (c : ComparisonItem) :
    (reclassifyItem t c).beforeValue = c.beforeValue := by
  unfold reclassifyItem
  rcases hb : c.beforeValue with _ | bv <;> rcases ha : c.afterValue with _ | av <;>
    simp only [hb, ha]
  split <;> simp [hb]

theorem reclassifyItem_afterValue (t : Int) (c : ComparisonItem) :
    (reclassifyItem t c).afterValue = c.afterValue := by
  unfold reclassifyItem
  rcases hb : c.beforeValue with _ | bv <;> rcases ha : c.afterValue with _ | av <;>
    simp only [hb, ha]
  split <;> simp [ha]

theorem reclassifyItem_status (t : Int) (c : ComparisonItem) :
    (reclassifyItem t c).status = statusFor t c.beforeValue c.afterValue := by
  unfold reclassifyItem statusFor
  rcases hb : c.beforeValue with _ | bv <;> rcases ha : c.afterValue with _ | av <;>
    simp only [hb, ha]
  split <;> rfl

theorem statusFor_increase {t1 t2 : Int} (h : t1 ≤ t2) (bo ao : Option Int) :
    statusFor t2 bo ao = statusFor t1 bo ao ∨
      (statusFor t1 bo ao = .different ∧ statusFor t2 bo ao = .match') := by
  rcases bo with _ | bv <;> rcases ao with _ | av
  · exact Or.inl rfl
  · exact Or.inl rfl
  · exact Or.inl rfl
  · simp only [statusFor]
    by_cases h1 : jsAbs (av - bv) ≤ t1
    · rw [if_pos h1, if_pos (le_trans h1 h)]
      exact Or.inl rfl
    · by_cases h2 : jsAbs (av - bv) ≤ t2
      · rw [if_neg h1, if_pos h2]
        exact Or.inr ⟨rfl, rfl⟩
      · rw [if_neg h1, if_neg h2]
        exact Or.inl rfl

theorem statusFor_decrease {t1 t2 : Int} (h : t1 ≤ t2) (bo ao : Option Int) :
    statusFor t1 bo ao = statusFor t2 bo ao ∨
      (statusFor t2 bo ao = .match' ∧ statusFor t1 bo ao = .different) := by
  rcases bo with _ | bv <;> rcases ao with _ | av
  · exact Or.inl rfl
  · exact Or.inl rfl
  · exact Or.inl rfl
  · simp only [statusFor]
    by_cases h1 : jsAbs (av - bv) ≤ t1
    · rw [if_pos h1, if_pos (le_trans h1 h)]
      exact Or.inl rfl
    · by_cases h2 : jsAbs (av - bv) ≤ t2
      · rw [if_neg h1, if_pos h2]
        exact Or.inr ⟨rfl, rfl⟩
      · rw [if_neg h1, if_neg h2]
        exact Or.inl rfl

theorem statusFor_eq_onlyBefore_iff (t : Int) (bo ao : Option Int) :
    statusFor t bo ao = .onlyBefore ↔ bo.isSome ∧ ao = none := by
  rcases bo with _ | bv <;> rcases ao with _ | av
  · simp [statusFor]
  · simp [statusFor]
  · simp [statusFor]
  · simp only [statusFor]
    split <;> simp

theorem statusFor_eq_onlyAfter_iff (t : Int) (bo ao : Option Int) :
    statusFor t bo ao = .onlyAfter ↔ bo = none := by
  rcases bo with _ | bv <;> rcases ao with _ | av
  · simp [statusFor]
  · simp [statusFor]
  · simp [statusFor]
  · simp only [statusFor]
    split <;> simp

theorem compare_consistent {b a : List (String × Int)} {d cc : String}
    {t : Int} {res : ComparisonResult}
    (hok : compareKerningTables b a d cc t = .ok res) :
    ∀ c ∈ res.comparisons,
      c.status = statusFor t c.beforeValue c.afterValue := by
  intro c hc
  obtain ⟨hcomp, _⟩ := compare_ok_eq hok
  rw [hcomp, mem_sortComparisons] at hc
  unfold buildComparisons at hc
  obtain ⟨k, hk, rfl⟩ := List.mem_map.mp hc
  rw [classifyKey_status, classifyKey_beforeValue, classifyKey_afterValue]

/-- C8: starting from a comparison computed at tolerance `t1 < t2`,
reclassifying at the larger tolerance `t2` changes an item's status only
from `different` to `match` (never `match` to `different`);
reclassifying back down to `t1` changes a status only from `match` to
`different`; and the `only-before`/`only-after` statuses and their
counts are unchanged by reclassification at any tolerance. -/
theorem c8_tolerance_monotonicity (b a : List (String × Int))
    (d cc : String) (t1 t2 : Int) (res : ComparisonResult)
    (hok : compareKerningTables b a d cc t1 = .ok res) (hlt : t1 < t2) :
    (∀ c ∈ res.comparisons,
      (reclassifyItem t2 c).status = c.status ∨
        (c.status = .different ∧ (reclassifyItem t2 c).status = .match')) ∧
    (∀ c ∈ res.comparisons,
      (reclassifyItem t1 (reclassifyItem t2 c)).status =
          (reclassifyItem t2 c).status ∨
        ((reclassifyItem t2 c).status = .match' ∧
          (reclassifyItem t1 (reclassifyItem t2 c)).status = .different)) ∧
    (∀ t : Int, ∀ c ∈ res.comparisons,
      ((reclassifyItem t c).status = .onlyBefore ↔
        c.status = .onlyBefore) ∧
      ((reclassifyItem t c).status = .onlyAfter ↔
        c.status = .onlyAfter)) ∧
    (∀ t : Int,
      countStatus .onlyBefore (reclassifyComparisons t res.comparisons) =
        countStatus .onlyBefore res.comparisons ∧
      countStatus .onlyAfter (reclassifyComparisons t res.comparisons) =
        countStatus .onlyAfter res.comparisons) := by
  have hcons := compare_consistent hok
  have hitem : ∀ t : Int, ∀ c ∈ res.comparisons,
      ((reclassifyItem t c).status = .onlyBefore ↔
        c.status = .onlyBefore) ∧
      ((reclassifyItem t c).status = .onlyAfter ↔
        c.status = .onlyAfter) := by
    intro t c hc
    rw [reclassifyItem_status, hcons c hc,
      statusFor_eq_onlyBefore_iff, statusFor_eq_onlyBefore_iff,
      statusFor_eq_onlyAfter_iff, statusFor_eq_onlyAfter_iff]
    exact ⟨Iff.rfl, Iff.rfl⟩
  refine ⟨?_, ?_, hitem, ?_⟩
  · intro c hc
    rw [reclassifyItem_status, hcons c hc]
    exact statusFor_increase hlt.le _ _
  · intro c hc
    rw [reclassifyItem_status t1, reclassifyItem_beforeValue,
      reclassifyItem_afterValue, reclassifyItem_status t2]
    exact statusFor_decrease hlt.le _ _
  · intro t
    constructor
    · unfold countStatus reclassifyComparisons
      rw [List.countP_map]
      refine List.countP_congr ?_
      intro c hc
      simpa using (hitem t c hc).1
    · unfold countStatus reclassifyComparisons
      rw [List.countP_map]
      refine List.countP_congr ?_
      intro c hc
      simpa using (hitem t c hc).2

theorem c8_tolerance_monotonicity_witness :
    compareKerningTables [("A,V", -50)] [("A,V", -45)] "all-pairs" "" 4 =
      .ok c8Res ∧ (4 : Int) < 5 ∧
    (∀ c ∈ c8Res.comparisons,
      (reclassifyItem 5 c).status = c.status ∨
        (c.status = .different ∧ (reclassifyItem 5 c).status = .match')) :=
  by
  have h : compareKerningTables [("A,V", -50)] [("A,V", -45)]
      "all-pairs" "" 4 = .ok c8Res := rfl
  exact ⟨h, by norm_num,
    (c8_tolerance_monotonicity [("A,V", -50)] [("A,V", -45)] "all-pairs" ""
      4 5 c8Res h (by norm_num)).1⟩

theorem jsMapGet_eq_some_iff {entries : List (String × Int)}
    (h : (entries.map Prod.fst).Nodup) (k : String) (v : Int) :
    jsMapGet entries k = some v ↔ (k, v) ∈ entries := by
  unfold jsMapGet
  rw [lookup_eq_some_iff_of_nodup
    (by rw [List.map_reverse]; exact List.nodup_reverse.mpr h)]
  exact List.mem_reverse

theorem asymmetryPairMap_keys (comps : List ComparisonItem)
    (fk : FontKey) :
    (asymmetryPairMap comps fk).map Prod.fst =
      (validPairs comps fk).map (fun c => c.left ++ "," ++ c.right) := by
  unfold asymmetryPairMap
  rw [List.map_map]
  rfl

theorem sideValue_eq_some_of_valid {comps : List ComparisonItem}
    {fk : FontKey} {c : ComparisonItem} (hc : c ∈ validPairs comps fk) :
    sideValue fk c = some ((sideValue fk c).getD 0) := by
  have hs : (sideValue fk c).isSome := by
    have := List.of_mem_filter hc
    simpa using this
  rcases hv : sideValue fk c with _ | v
  · rw [hv] at hs; simp at hs
  · rfl

theorem mem_asymmetryCandidates_iff {comps : List ComparisonItem}
    {fk : FontKey}
    (hnodup : ((validPairs comps fk).map
      (fun c => c.left ++ "," ++ c.right)).Nodup)
    (e : AsymmetricPair) :
    e ∈ asymmetryCandidates comps fk ↔
      ∃ c ∈ validPairs comps fk,
        sideValue fk c = some e.value ∧
        e.pair = c.pair ∧
        e.reversePair = c.right ++ c.left ∧
        (∃ c2 ∈ validPairs comps fk,
          c2.left ++ "," ++ c2.right = c.right ++ "," ++ c.left ∧
          sideValue fk c2 = some e.reverseValue) ∧
        e.difference = jsAbs (e.value - e.reverseValue) ∧
        e.difference > 10 := by
  have hpm : ((asymmetryPairMap comps fk).map Prod.fst).Nodup := by
    rw [asymmetryPairMap_keys]; exact hnodup
  unfold asymmetryCandidates
  rw [List.mem_filterMap]
  constructor
  · rintro ⟨c, hc, hg⟩
    rcases hmg : jsMapGet (asymmetryPairMap comps fk)
        (c.right ++ "," ++ c.left) with _ | rv
    · rw [hmg] at hg; exact absurd hg (by simp)
    · rw [hmg] at hg
      simp only [] at hg
      by_cases hgt : jsAbs ((sideValue fk c).getD 0 - rv) > 10
      · rw [if_pos hgt] at hg
        obtain rfl := (Option.some.injEq ..).mp hg
        refine ⟨c, hc, ?_, rfl, rfl, ?_, rfl, hgt⟩
        · exact sideValue_eq_some_of_valid hc
        · have hmem := (jsMapGet_eq_some_iff hpm _ _).mp hmg
          unfold asymmetryPairMap at hmem
          obtain ⟨c2, hc2, hkv⟩ := List.mem_map.mp hmem
          refine ⟨c2, hc2, ?_, ?_⟩
          · exact congrArg Prod.fst hkv
          · have hv2 := congrArg Prod.snd hkv
            simp only [] at hv2
            rw [sideValue_eq_some_of_valid hc2, hv2]
      · rw [if_neg hgt] at hg
        exact absurd hg (by simp)
  · rintro ⟨c, hc, hval, hpair, hrev, ⟨c2, hc2, hkey, hval2⟩, hdiff, hgt⟩
    refine ⟨c, hc, ?_⟩
    have hmg : jsMapGet (asymmetryPairMap comps fk)
        (c.right ++ "," ++ c.left) = some e.reverseValue := by
      rw [jsMapGet_eq_some_iff hpm]
      unfold asymmetryPairMap
      rw [List.mem_map]
      refine ⟨c2, hc2, ?_⟩
      have : (sideValue fk c2).getD 0 = e.reverseValue := by
        have := hval2
        rw [sideValue_eq_some_of_valid hc2] at this
        exact (Option.some.injEq ..).mp this
      rw [hkey, this]
    rw [hmg]
    simp only []
    have hv : (sideValue fk c).getD 0 = e.value := by
      have := hval
      rw [sideValue_eq_some_of_valid hc] at this
      exact (Option.some.injEq ..).mp this
    rw [hv, if_pos (hdiff ▸ hgt)]
    cases e with
    | mk p rp v rv df =>
        simp only [] at hpair hrev hdiff hv ⊢
        rw [hpair, hrev, hdiff]

/-- C9: the asymmetry detector's candidate list contains an entry for a
pair exactly when the reverse pair is also present on the same
comparison side and the absolute value difference exceeds 10; the
returned report is the candidate list sorted descending by difference,
truncated to at most 5 entries; and on the spec's scenarios,
`{"A,V": -50, "V,A": -20}` reports asymmetry with difference 30 while
`{"A,V": -50, "V,A": -45}` reports none. -/
theorem c9_asymmetry_detection :
    (∀ (comps : List ComparisonItem) (fk : FontKey),
      ((validPairs comps fk).map
        (fun c => c.left ++ "," ++ c.right)).Nodup →
      ∀ e : AsymmetricPair,
        (e ∈ asymmetryCandidates comps fk ↔
          ∃ c ∈ validPairs comps fk,
            sideValue fk c = some e.value ∧
            e.pair = c.pair ∧
            e.reversePair = c.right ++ c.left ∧
            (∃ c2 ∈ validPairs comps fk,
              c2.left ++ "," ++ c2.right = c.right ++ "," ++ c.left ∧
              sideValue fk c2 = some e.reverseValue) ∧
            e.difference = jsAbs (e.value - e.reverseValue) ∧
            e.difference > 10)) ∧
    (∀ (comps : List ComparisonItem) (fk : FontKey),
      getAsymmetricPairs comps fk =
        ((asymmetryCandidates comps fk).insertionSort
          (fun p q => q.difference ≤ p.difference)).take 5 ∧
      (getAsymmetricPairs comps fk).length ≤ 5 ∧
      (getAsymmetricPairs comps fk).Pairwise
        (fun p q => q.difference ≤ p.difference)) ∧
    getAsymmetricPairs asymEx1 .before =
      [{ pair := "AV", reversePair := "VA", value := -50,
         reverseValue := -20, difference := 30 },
       { pair := "VA", reversePair := "AV", value := -20,
         reverseValue := -50, difference := 30 }] ∧
    getAsymmetricPairs asymEx2 .before = [] := by
  refine ⟨fun comps fk h e => mem_asymmetryCandidates_iff h e,
    fun comps fk => ⟨rfl, ?_, ?_⟩, rfl, rfl⟩
  · exact List.length_take_le 5 _
  · haveI : IsTotal AsymmetricPair
        (fun p q => q.difference ≤ p.difference) :=
      ⟨fun p q => le_total q.difference p.difference⟩
    haveI : IsTrans AsymmetricPair
        (fun p q => q.difference ≤ p.difference) :=
      ⟨fun p q u h1 h2 => le_trans h2 h1⟩
    have hsorted := List.sorted_insertionSort
      (r := fun (p q : AsymmetricPair) => q.difference ≤ p.difference)
      (asymmetryCandidates comps fk)
    exact hsorted.sublist (List.take_sublist 5 _)

theorem c9_asymmetry_detection_witness :
    (((validPairs asymEx1 FontKey.before).map
        (fun c => c.left ++ "," ++ c.right)).Nodup) ∧
    ({ pair := "AV", reversePair := "VA", value := -50, reverseValue := -20,
       difference := 30 } ∈ asymmetryCandidates asymEx1 FontKey.before) := by
  have hnodup : ((validPairs asymEx1 FontKey.before).map
      (fun c => c.left ++ "," ++ c.right)).Nodup := by decide
  refine ⟨hnodup, ?_⟩
  refine (c9_asymmetry_detection.1 asymEx1 FontKey.before hnodup
    { pair := "AV", reversePair := "VA", value := -50, reverseValue := -20,
      difference := 30 }).mpr ?_
  exact ⟨avItemB, by decide, by decide, by decide, by decide,
    ⟨vaItemB20, by decide, by decide, by decide⟩, by decide, by decide⟩

theorem jsAbs_sub_comm (x y : Int) : jsAbs (x - y) = jsAbs (y - x) := by
  unfold jsAbs
  split <;> split <;> omega

/-- C10: when both orientations (L,R) and (R,L) of a pair are present on
one comparison side and their absolute value difference exceeds 10, the
asymmetry candidate list contains two separate entries for the same
underlying asymmetry — one per orientation, with equal difference
values — and on the concrete example the single asymmetric letter pair
occupies two of the at-most-5 reported slots. -/
theorem c10_asymmetry_double_entry :
    (∀ (comps : List ComparisonItem) (fk : FontKey),
      ((validPairs comps fk).map
        (fun c => c.left ++ "," ++ c.right)).Nodup →
      ∀ c1 c2 : ComparisonItem,
        c1 ∈ validPairs comps fk → c2 ∈ validPairs comps fk →
      ∀ v1 v2 : Int,
        sideValue fk c1 = some v1 → sideValue fk c2 = some v2 →
        c2.left = c1.right → c2.right = c1.left →
        jsAbs (v1 - v2) > 10 →
        ({ pair := c1.pair, reversePair := c1.right ++ c1.left,
           value := v1, reverseValue := v2,
           difference := jsAbs (v1 - v2) } ∈
            asymmetryCandidates comps fk ∧
         { pair := c2.pair, reversePair := c2.right ++ c2.left,
           value := v2, reverseValue := v1,
           difference := jsAbs (v2 - v1) } ∈
            asymmetryCandidates comps fk ∧
         jsAbs (v1 - v2) = jsAbs (v2 - v1))) ∧
    getAsymmetricPairs asymEx1 .before =
      [{ pair := "AV", reversePair := "VA", value := -50,
         reverseValue := -20, difference := 30 },
       { pair := "VA", reversePair := "AV", value := -20,
         reverseValue := -50, difference := 30 }] ∧
    (getAsymmetricPairs asymEx1 .before).length = 2 := by
  refine ⟨?_, rfl, rfl⟩
  intro comps fk hnodup c1 c2 hc1 hc2 v1 v2 hv1 hv2 hl hr hgt
  refine ⟨?_, ?_, jsAbs_sub_comm v1 v2⟩
  · refine (mem_asymmetryCandidates_iff hnodup _).mpr ?_
    refine ⟨c1, hc1, hv1, rfl, rfl, ⟨c2, hc2, ?_, hv2⟩, rfl, hgt⟩
    rw [hl, hr]
  · refine (mem_asymmetryCandidates_iff hnodup _).mpr ?_
    refine ⟨c2, hc2, hv2, rfl, rfl, ⟨c1, hc1, ?_, hv1⟩, rfl, ?_⟩
    · rw [hl, hr]
    · rw [← jsAbs_sub_comm]
      exact hgt

theorem c10_asymmetry_double_entry_witness :
    jsAbs ((-50 : Int) - (-20)) > 10 ∧
    ({ pair := avItemB.pair, reversePair := avItemB.right ++ avItemB.left,
       value := -50, reverseValue := -20,
       difference := jsAbs ((-50 : Int) - (-20)) } ∈
        asymmetryCandidates asymEx1 FontKey.before) ∧
    ({ pair := vaItemB20.pair,
       reversePair := vaItemB20.right ++ vaItemB20.left,
       value := -20, reverseValue := -50,
       difference := jsAbs ((-20 : Int) - (-50)) } ∈
        asymmetryCandidates asymEx1 FontKey.before) := by
  have h := c10_asymmetry_double_entry.1 asymEx1 FontKey.before (by decide)
    avItemB vaItemB20 (by decide) (by decide) (-50) (-20) (by decide)
    (by decide) (by decide) (by decide) (by decide)
  exact ⟨by decide, h.1, h.2.1⟩

/-- C4 counterexample: a font lacking both lookup capabilities makes
`extractKerningPairs` return a normal empty mapping, never a thrown
error — refuting the claim that extraction throws on unsupported
fonts. -/
theorem c4_counterexample :
    extractKerningPairs (some fontNoCaps) = .ok [] ∧
    ¬(∀ f : Font, (f.charToGlyph = none ∨ f.getKerningValue = none) →
      ∃ msg, extractKerningPairs (some f) = Except.error msg) := by
  refine ⟨rfl, fun h => ?_⟩
  obtain ⟨msg, hmsg⟩ := h fontNoCaps (Or.inl rfl)
  rw [show extractKerningPairs (some fontNoCaps) = .ok [] from rfl] at hmsg
  exact absurd hmsg (by simp)

/-- C4 (amended): for every font object lacking the glyph-lookup or the
kerning-lookup capability (and for a missing font object), extraction
silently returns an empty kerning mapping after logging to the console;
it does not throw. -/
theorem c4_unsupported_font_returns_empty (f : Font)
    (h : f.charToGlyph = none ∨ f.getKerningValue = none) :
    extractKerningPairs (some f) = .ok [] ∧
    extractKerningPairs none = .ok [] := by
  rcases f with ⟨ctg, gkv⟩
  refine ⟨?_, rfl⟩
  rcases h with h | h
  · simp only [] at h
    subst h
    rfl
  · simp only [] at h
    subst h
    rcases ctg with _ | g <;> rfl

theorem c4_unsupported_font_returns_empty_witness :
    (fontNoCaps.charToGlyph = none ∨ fontNoCaps.getKerningValue = none) ∧
    extractKerningPairs (some fontNoCaps) = .ok [] :=
  ⟨Or.inl rfl,
    (c4_unsupported_font_returns_empty fontNoCaps (Or.inl rfl)).1⟩

theorem pairKey_inj {a b l r : Char} (h : pairKey a b = pairKey l r) :
    a = l ∧ b = r := by
  unfold pairKey at h
  have hd := congrArg String.data h
  simp only [List.cons.injEq] at hd
  exact ⟨hd.1, hd.2.2.1⟩

theorem mem_cartesianPairs {xs ys : List Char} {a b : Char} :
    (a, b) ∈ cartesianPairs xs ys ↔ a ∈ xs ∧ b ∈ ys := by
  induction xs with
  | nil => simp [cartesianPairs]
  | cons x xs ih =>
      simp only [cartesianPairs, List.mem_append, List.mem_map, ih,
        List.mem_cons, Prod.mk.injEq]
      constructor
      · rintro (⟨y, hy, rfl, rfl⟩ | ⟨h1, h2⟩)
        · exact ⟨Or.inl rfl, hy⟩
        · exact ⟨Or.inr h1, h2⟩
      · rintro ⟨h1 | h1, h2⟩
        · exact Or.inl ⟨b, h2, h1.symm, rfl⟩
        · exact Or.inr ⟨h1, h2⟩

theorem length_cartesianPairs (xs ys : List Char) :
    (cartesianPairs xs ys).length = xs.length * ys.length := by
  induction xs with
  | nil => simp [cartesianPairs]
  | cons x xs ih => simp [cartesianPairs, ih, Nat.succ_mul, Nat.add_comm]

theorem charList_length : charList.length = 81 := by decide

theorem cartesianPairs_charList_length :
    (cartesianPairs charList charList).length = 6561 := by
  rw [length_cartesianPairs, charList_length]

/-- C5 counterexample: the extractor's fixed candidate character set has
81 characters and 6,561 ordered pairs, not the claimed 86 characters
and up to 7,396 ordered pairs. -/
theorem c5_counterexample :
    characters.length = 81 ∧ characters.length ≠ 86 ∧
    (cartesianPairs charList charList).length = 6561 ∧
    (cartesianPairs charList charList).length ≠ 7396 := by
  refine ⟨by decide, by decide, cartesianPairs_charList_length, ?_⟩
  rw [cartesianPairs_charList_length]
  omega

/-- C5 (amended): for every font object with glyph and kerning lookups,
extraction iterates the Cartesian product of a fixed candidate set of
81 characters (uppercase, lowercase, digits and a fixed 19-character
punctuation set — 6,561 ordered pairs, all candidates distinct);
extraction always returns normally (`.ok`, so a per-pair lookup failure
never aborts it), and the output mapping contains the entry for
(left, right) with value v iff both characters are candidates, glyph
resolution and the pairwise kerning query succeed with value v, and v
is non-zero. -/
theorem c5_extraction_characterization
    (ctg : Char → Except String Nat)
    (gkv : Nat → Nat → Except String Int) :
    extractKerningPairs (some ⟨some ctg, some gkv⟩) =
      .ok (extractPairsList ctg gkv) ∧
    characters.length = 81 ∧
    (cartesianPairs charList charList).length = 6561 ∧
    charList.Nodup ∧
    (∀ (l r : Char) (v : Int),
      ((pairKey l r, v) ∈ extractPairsList ctg gkv ↔
        (l ∈ charList ∧ r ∈ charList ∧
          tryPair ctg gkv l r = some v ∧ v ≠ 0))) := by
  refine ⟨rfl, by decide, cartesianPairs_charList_length, by decide, ?_⟩
  intro l r v
  unfold extractPairsList
  rw [List.mem_filterMap]
  constructor
  · rintro ⟨⟨a, b⟩, hab, hg⟩
    rcases ht : tryPair ctg gkv a b with _ | w
    · rw [ht] at hg
      exact absurd hg (by simp)
    · rw [ht] at hg
      simp only [] at hg
      by_cases hw : w ≠ 0
      · rw [if_pos hw] at hg
        have hkv := (Option.some.injEq ..).mp hg
        have hkey : pairKey a b = pairKey l r := congrArg Prod.fst hkv
        have hval : w = v := congrArg Prod.snd hkv
        obtain ⟨rfl, rfl⟩ := pairKey_inj hkey
        obtain ⟨hl, hr⟩ := mem_cartesianPairs.mp hab
        subst hval
        exact ⟨hl, hr, ht, hw⟩
      · rw [if_neg hw] at hg
        exact absurd hg (by simp)
  · rintro ⟨hl, hr, ht, hv⟩
    refine ⟨(l, r), mem_cartesianPairs.mpr ⟨hl, hr⟩, ?_⟩
    rw [ht]
    simp only []
    rw [if_pos hv]

theorem c5_extraction_characterization_witness :
    ('A' ∈ charList ∧ 'V' ∈ charList ∧
      tryPair ctgEx gkvEx 'A' 'V' = some (-50) ∧ (-50 : Int) ≠ 0) ∧
    (pairKey 'A' 'V', (-50 : Int)) ∈ extractPairsList ctgEx gkvEx := by
  have hh : 'A' ∈ charList ∧ 'V' ∈ charList ∧
      tryPair ctgEx gkvEx 'A' 'V' = some (-50) ∧ (-50 : Int) ≠ 0 := by
    refine ⟨by decide, by decide, by decide, by decide⟩
  exact ⟨hh,
    ((c5_extraction_characterization ctgEx gkvEx).2.2.2.2 'A' 'V'
      (-50)).mpr hh⟩

theorem jsSplitComma_pairKey (l r : Char) :
    jsSplitComma (pairKey l r) =
      if l = ',' then
        (if r = ',' then ["", "", "", ""] else ["", "", charToStr r])
      else
        (if r = ',' then [charToStr l, "", ""]
         else [charToStr l, charToStr r]) := by
  by_cases hl : l = ','
  · by_cases hr : r = ','
    · subst hl; subst hr; rfl
    · subst hl
      rw [if_pos rfl, if_neg hr]
      simp [jsSplitComma, pairKey, splitCommaAux, hr, charToStr]
  · by_cases hr : r = ','
    · subst hr
      rw [if_neg hl, if_pos rfl]
      simp [jsSplitComma, pairKey, splitCommaAux, hl, charToStr]
    · rw [if_neg hl, if_neg hr]
      simp [jsSplitComma, pairKey, splitCommaAux, hl, hr, charToStr]

theorem charToStr_ne_empty (c : Char) : charToStr c ≠ "" := by
  intro h
  have := congrArg String.data h
  simp [charToStr] at this

theorem charToStr_injective {a b : Char} (h : charToStr a = charToStr b) :
    a = b := by
  have := congrArg String.data h
  simpa [charToStr] using this

theorem contains_empty_string_eq_false (chars : List Char) :
    ((chars.map charToStr).contains "") = false := by
  simp only [List.contains, List.elem_eq_mem, decide_eq_false_iff_not]
  intro h
  obtain ⟨c, _, hc⟩ := List.mem_map.mp h
  exact charToStr_ne_empty c hc

theorem contains_charToStr_eq (chars : List Char) (c : Char) :
    ((chars.map charToStr).contains (charToStr c)) = decide (c ∈ chars) := by
  simp only [List.contains, List.elem_eq_mem]
  rw [decide_eq_decide]
  rw [List.mem_map]
  constructor
  · rintro ⟨x, hx, hcx⟩
    exact charToStr_injective hcx ▸ hx
  · intro hc
    exact ⟨c, hc, rfl⟩

theorem encoded_filter_pred (cs : List Char) (l r : Char) :
    ((cs.map charToStr).contains
        (((jsSplitComma (pairKey l r)).get? 0).getD "") &&
     (cs.map charToStr).contains
        (((jsSplitComma (pairKey l r)).get? 1).getD "")) =
      (decide (l ≠ ',') && decide (r ≠ ',') && decide (l ∈ cs) &&
        decide (r ∈ cs)) := by
  rw [jsSplitComma_pairKey]
  by_cases hl : l = ','
  · subst hl
    by_cases hr : r = ','
    · subst hr
      rw [if_pos rfl, if_pos rfl]
      show ((cs.map charToStr).contains "" &&
        (cs.map charToStr).contains "") = _
      rw [contains_empty_string_eq_false]
      simp
    · rw [if_pos rfl, if_neg hr]
      show ((cs.map charToStr).contains "" &&
        (cs.map charToStr).contains "") = _
      rw [contains_empty_string_eq_false]
      simp
  · by_cases hr : r = ','
    · subst hr
      rw [if_neg hl, if_pos rfl]
      show ((cs.map charToStr).contains (charToStr l) &&
        (cs.map charToStr).contains "") = _
      rw [contains_empty_string_eq_false]
      simp
    · rw [if_neg hl, if_neg hr]
      show ((cs.map charToStr).contains (charToStr l) &&
        (cs.map charToStr).contains (charToStr r)) = _
      rw [contains_charToStr_eq, contains_charToStr_eq]
      simp [hl, hr]

/-- C3 counterexample: the claim that `filterPairsByDictionary` keeps
exactly the entries whose left and right characters are both in the
dictionary's character set (with identity for an empty set) fails in
two ways: (1) with a configured custom dictionary of digits, the filter
returns the mapping `{"A,V": -50}` unchanged although its characters
are outside the character set; (2) with `latin-concise` (whose set
contains both `,` and `A`), the entry for the pair (`,`, `A`) is
dropped because the key `",,A"` is mangled by `split(',')`. -/
theorem c3_counterexample :
    filterPairsByDictionary "0123456789" (encodeMapping [(('A', 'V'), -50)])
        "custom" = encodeMapping [(('A', 'V'), -50)] ∧
    (getDictionary "0123456789" "custom").characters = "0123456789" ∧
    ('A' ∉ (getDictionary "0123456789" "custom").characters.data) ∧
    ¬dictionaryFilterSpec "0123456789" [(('A', 'V'), -50)] "custom" ∧
    filterPairsByDictionary "" (encodeMapping [((',', 'A'), -5)])
        "latin-concise" = [] ∧
    (',' ∈ (getDictionary "" "latin-concise").characters.data) ∧
    ('A' ∈ (getDictionary "" "latin-concise").characters.data) ∧
    ¬dictionaryFilterSpec "" [((',', 'A'), -5)] "latin-concise" := by
  refine ⟨rfl, rfl, by decide, ?_, by decide, by decide, by decide, ?_⟩
  · intro h
    unfold dictionaryFilterSpec at h
    rw [if_neg (by decide)] at h
    exact absurd h (by decide)
  · intro h
    unfold dictionaryFilterSpec at h
    rw [if_neg (by decide)] at h
    exact absurd h (by decide)

/-- C3 (amended): for the ids `all-pairs` and `custom` the filter
always returns the input unchanged (even when the custom profile has a
non-empty character set), as it does whenever the resolved dictionary's
character set is empty; for any other id with a non-empty character
set, the filtered mapping keeps exactly the input entries whose left
and right characters are both members of the dictionary's character set
and neither of which is the comma character (entries with a comma
character on either side are always dropped, because the `"l,r"` key
encoding is re-split on commas). -/
theorem c3_filter_characterization (customChars : String)
    (m : List ((Char × Char) × Int)) (dictionaryId : String) :
    ((dictionaryId = "all-pairs" ∨ dictionaryId = "custom" ∨
        (getDictionary customChars dictionaryId).characters = "") →
      filterPairsByDictionary customChars (encodeMapping m) dictionaryId =
        encodeMapping m) ∧
    (¬(dictionaryId = "all-pairs" ∨ dictionaryId = "custom") →
      (getDictionary customChars dictionaryId).characters ≠ "" →
      filterPairsByDictionary customChars (encodeMapping m) dictionaryId =
        encodeMapping (m.filter (fun e =>
          decide (e.1.1 ≠ ',') && decide (e.1.2 ≠ ',') &&
          decide (e.1.1 ∈
            (getDictionary customChars dictionaryId).characters.data) &&
          decide (e.1.2 ∈
            (getDictionary customChars dictionaryId).characters.data)))) := by
  constructor
  · intro h
    by_cases hd : dictionaryId = "all-pairs" ∨ dictionaryId = "custom"
    · unfold filterPairsByDictionary
      rw [if_pos hd]
    · have hchar : (getDictionary customChars dictionaryId).characters = "" := by
        tauto
      have hdata : (getDictionary customChars dictionaryId).characters.data =
          [] := congrArg String.data hchar
      unfold filterPairsByDictionary
      rw [if_neg hd]
      simp only []
      rw [if_pos (by simp [hdata])]
  · intro hd hne
    have hdata : (getDictionary customChars dictionaryId).characters.data ≠
        [] := by
      intro hnil
      apply hne
      have hmk : (getDictionary customChars dictionaryId).characters =
          String.mk (getDictionary customChars dictionaryId).characters.data :=
        rfl
      rw [hmk, hnil]
    unfold filterPairsByDictionary
    rw [if_neg hd]
    simp only []
    rw [if_neg (fun hmap => hdata (List.map_eq_nil_iff.mp hmap))]
    unfold encodeMapping
    rw [List.filter_map]
    congr 1
    apply List.filter_congr
    intro e he
    exact encoded_filter_pred _ e.1.1 e.1.2

theorem c3_filter_characterization_witness :
    (¬("latin-concise" = "all-pairs" ∨ "latin-concise" = "custom")) ∧
    ((getDictionary "" "latin-concise").characters ≠ "") ∧
    filterPairsByDictionary "" (encodeMapping [((',', 'A'), -5)])
        "latin-concise" =
      encodeMapping ([((',', 'A'), -5)].filter (fun e =>
        decide (e.1.1 ≠ ',') && decide (e.1.2 ≠ ',') &&
        decide (e.1.1 ∈ (getDictionary "" "latin-concise").characters.data) &&
        decide (e.1.2 ∈
          (getDictionary "" "latin-concise").characters.data))) := by
  have h1 : ¬("latin-concise" = "all-pairs" ∨ "latin-concise" = "custom") :=
    by decide
  have h2 : (getDictionary "" "latin-concise").characters ≠ "" := by decide
  exact ⟨h1, h2,
    (c3_filter_characterization "" [((',', 'A'), -5)] "latin-concise").2
      h1 h2⟩
